import Mathlib

/-!
Shallow embedding of the return/risk pipeline in
`src/data_extraction_processing.py` (functions `retrieve_historical_returns`,
`construct_key_metrics`, `backtest_resample`), together with theorems that
settle the frozen claims about it.

Dates are modelled as proleptic Gregorian calendar dates; `toOrd` is the
Python `date.toordinal` day count, and date comparison / subtraction of
timestamps is comparison / subtraction of ordinals, which agrees with the
chronological order used by `datetime` and pandas.  Month arithmetic models
`dateutil.relativedelta(months=k)`: add `k` to the month, carry into the
year, clamp the day to the length of the target month.  Floating-point cells
are modelled as rationals; the float value NaN is modelled as `Option.none`.
-/

namespace WQC

/-- Proleptic Gregorian calendar date (year, month, day). -/
structure Date where
  y : Nat
  m : Nat
  d : Nat
  deriving DecidableEq, Repr

/-- Gregorian leap-year rule. -/
def isLeap (y : Nat) : Bool := (y % 4 == 0 && y % 100 != 0) || y % 400 == 0

/-- Length of month `m` (1..12) for a given leap flag. -/
def monthLen (leap : Bool) (m : Nat) : Nat :=
  if m = 2 then (if leap then 29 else 28)
  else if m = 4 ∨ m = 6 ∨ m = 9 ∨ m = 11 then 30
  else 31

/-- Number of days of month `m` of year `y`. -/
def daysInMonth (y m : Nat) : Nat := monthLen (isLeap y) m

/-- Days of the year strictly before the first day of month `m`. -/
def daysBeforeMonth (leap : Bool) (m : Nat) : Nat :=
  ((List.range (m - 1)).map (fun k => monthLen leap (k + 1))).sum

/-- Days strictly before January 1 of year `y` (Python `date.toordinal` convention). -/
def daysBeforeYear (y : Nat) : Nat :=
  365 * (y - 1) + (y - 1) / 4 + (y - 1) / 400 - (y - 1) / 100

/-- Python `date.toordinal`: day number in the proleptic Gregorian calendar. -/
def toOrd (a : Date) : Nat := daysBeforeYear a.y + daysBeforeMonth (isLeap a.y) a.m + a.d

/-- Chronological comparison of timestamps, as a Bool. -/
def dle (a b : Date) : Bool := decide (toOrd a ≤ toOrd b)

/-- Absolute distance between two timestamps, in days (`abs (x - end_date)`). -/
def distDays (a b : Date) : Nat := ((toOrd a : ℤ) - (toOrd b : ℤ)).natAbs

/-- Last calendar day of month `m` of year `y`. -/
def monthEnd (y m : Nat) : Date := ⟨y, m, daysInMonth y m⟩

/-- `dateutil.relativedelta(months := k)` added to a date: shift the month,
carry into the year, clamp the day to the target month length. -/
def addMonths (a : Date) (k : Nat) : Date :=
  ⟨a.y + (a.m - 1 + k) / 12, (a.m - 1 + k) % 12 + 1,
    min a.d (daysInMonth (a.y + (a.m - 1 + k) / 12) ((a.m - 1 + k) % 12 + 1))⟩

/-- Month (1..12) reached `i` months after month `m0`. -/
def nthMonth (m0 i : Nat) : Nat := (m0 - 1 + i) % 12 + 1

/-- Year reached `i` months after month `m0` of year `y0`. -/
def nthYear (y0 m0 i : Nat) : Nat := y0 + (m0 - 1 + i) / 12

/-- The `i`-th consecutive calendar month-end date starting from month `m0` of year `y0`. -/
def nthMonthEnd (y0 m0 i : Nat) : Date := monthEnd (nthYear y0 m0 i) (nthMonth m0 i)

theorem monthLen_ge_28 (b : Bool) (m : Nat) : 28 ≤ monthLen b m := by
  unfold monthLen
  split
  · split <;> norm_num
  · split <;> norm_num

theorem monthLen_pos (b : Bool) (m : Nat) : 1 ≤ monthLen b m :=
  le_trans (by norm_num) (monthLen_ge_28 b m)

theorem daysBeforeMonth_succ (b : Bool) (m : Nat) (hm : 1 ≤ m) :
    daysBeforeMonth b (m + 1) = daysBeforeMonth b m + monthLen b m := by
  obtain ⟨k, rfl⟩ : ∃ k, m = k + 1 := ⟨m - 1, by omega⟩
  unfold daysBeforeMonth
  simp [List.range_succ]

theorem daysBeforeMonth_twelve (b : Bool) :
    daysBeforeMonth b 12 + monthLen b 12 = 365 + (if b then 1 else 0) := by
  cases b <;> decide

set_option maxHeartbeats 2000000 in
theorem daysBeforeYear_succ (y : Nat) (hy : 1 ≤ y) :
    daysBeforeYear (y + 1) = daysBeforeYear y + 365 + (if isLeap y then 1 else 0) := by
  by_cases h : isLeap y = true
  · rw [if_pos h]
    unfold isLeap at h
    simp only [Bool.or_eq_true, Bool.and_eq_true, beq_iff_eq, bne_iff_ne, ne_eq] at h
    unfold daysBeforeYear
    omega
  · rw [if_neg h]
    unfold isLeap at h
    simp only [Bool.or_eq_true, Bool.and_eq_true, beq_iff_eq, bne_iff_ne, ne_eq] at h
    unfold daysBeforeYear
    omega

theorem toOrd_nth_lt (y0 m0 i dd : Nat) (hm1 : 1 ≤ m0) (hm2 : m0 ≤ 12) (hy : 1 ≤ y0)
    (hd : 1 ≤ dd) :
    toOrd (nthMonthEnd y0 m0 i) < toOrd ⟨nthYear y0 m0 (i + 1), nthMonth m0 (i + 1), dd⟩ := by
  by_cases hc : (m0 - 1 + i) % 12 = 11
  · have hY : nthYear y0 m0 (i + 1) = nthYear y0 m0 i + 1 := by unfold nthYear; omega
    have hM12 : nthMonth m0 i = 12 := by unfold nthMonth; omega
    have hM1 : nthMonth m0 (i + 1) = 1 := by unfold nthMonth; omega
    have hy' : 1 ≤ nthYear y0 m0 i := by unfold nthYear; omega
    unfold nthMonthEnd monthEnd toOrd daysInMonth
    simp only [hM12, hM1, hY]
    have h1 := daysBeforeYear_succ (nthYear y0 m0 i) hy'
    have h2 := daysBeforeMonth_twelve (isLeap (nthYear y0 m0 i))
    have h3 : daysBeforeMonth (isLeap (nthYear y0 m0 i + 1)) 1 = 0 := rfl
    cases hL : isLeap (nthYear y0 m0 i) <;> simp only [hL, if_true, if_false] at h1 h2 <;> omega
  · have hY : nthYear y0 m0 (i + 1) = nthYear y0 m0 i := by unfold nthYear; omega
    have hM : nthMonth m0 (i + 1) = nthMonth m0 i + 1 := by unfold nthMonth; omega
    have hmb : 1 ≤ nthMonth m0 i := by unfold nthMonth; omega
    unfold nthMonthEnd monthEnd toOrd daysInMonth
    simp only [hM, hY]
    have h2 := daysBeforeMonth_succ (isLeap (nthYear y0 m0 i)) (nthMonth m0 i) hmb
    omega

theorem toOrd_nth_succ (y0 m0 i : Nat) (hm1 : 1 ≤ m0) (hm2 : m0 ≤ 12) (hy : 1 ≤ y0) :
    toOrd (nthMonthEnd y0 m0 i) < toOrd (nthMonthEnd y0 m0 (i + 1)) :=
  toOrd_nth_lt y0 m0 i _ hm1 hm2 hy
    (monthLen_pos (isLeap (nthYear y0 m0 (i + 1))) (nthMonth m0 (i + 1)))

theorem toOrd_nth_strictMono (y0 m0 : Nat) (hm1 : 1 ≤ m0) (hm2 : m0 ≤ 12) (hy : 1 ≤ y0) :
    ∀ i j, i < j → toOrd (nthMonthEnd y0 m0 i) < toOrd (nthMonthEnd y0 m0 j) := by
  intro i j hij
  induction j with
  | zero => omega
  | succ k ih =>
    rcases Nat.lt_succ_iff_lt_or_eq.mp hij with h | h
    · exact (ih h).trans (toOrd_nth_succ y0 m0 k hm1 hm2 hy)
    · subst h; exact toOrd_nth_succ y0 m0 i hm1 hm2 hy

/-- Python `min(full_dates, key := fun x => abs (x - end_date))`: a left fold that
keeps the first element attaining the minimal key. -/
def closestTo (target : Date) : List Date → Date
  | [] => target
  | x :: xs =>
      xs.foldl (fun best yy => if distDays yy target < distDays best target then yy else best) x

theorem foldMin_mem (target : Date) (xs : List Date) : ∀ x : Date,
    xs.foldl (fun best yy => if distDays yy target < distDays best target then yy else best) x
      ∈ x :: xs := by
  induction xs with
  | nil => intro x; simp
  | cons y ys ih =>
    intro x
    simp only [List.foldl_cons]
    rcases List.mem_cons.mp (ih (if distDays y target < distDays x target then y else x))
      with h1 | h2
    · rw [h1]
      split
      · simp
      · simp
    · simp [h2]

theorem foldMin_le (target : Date) (xs : List Date) : ∀ x : Date, ∀ a ∈ x :: xs,
    distDays
      (xs.foldl (fun best yy => if distDays yy target < distDays best target then yy else best) x)
      target ≤ distDays a target := by
  induction xs with
  | nil =>
    intro x a ha
    simp only [List.mem_singleton] at ha
    subst ha
    simp
  | cons y ys ih =>
    intro x a ha
    simp only [List.foldl_cons]
    have hbx : distDays (if distDays y target < distDays x target then y else x) target
        ≤ distDays x target := by split <;> omega
    have hby : distDays (if distDays y target < distDays x target then y else x) target
        ≤ distDays y target := by split <;> omega
    rcases List.mem_cons.mp ha with rfl | ha2
    · exact le_trans (ih _ _ (List.mem_cons_self _ ys)) hbx
    rcases List.mem_cons.mp ha2 with rfl | ha3
    · exact le_trans (ih _ _ (List.mem_cons_self _ ys)) hby
    · exact ih _ a (List.mem_cons_of_mem _ ha3)

theorem foldMin_eq_or_lt (target : Date) (xs : List Date) : ∀ x : Date,
    xs.foldl (fun best yy => if distDays yy target < distDays best target then yy else best) x = x
    ∨ distDays
        (xs.foldl (fun best yy => if distDays yy target < distDays best target then yy else best) x)
        target < distDays x target := by
  induction xs with
  | nil => intro x; left; rfl
  | cons y ys ih =>
    intro x
    simp only [List.foldl_cons]
    by_cases hc : distDays y target < distDays x target
    · rw [if_pos hc]
      rcases ih y with h | h
      · right; rw [h]; exact hc
      · right; exact h.trans hc
    · rw [if_neg hc]
      exact ih x

theorem chain'_cons_of_cons {x y : Date} {ys : List Date}
    (hxy : toOrd x < toOrd y)
    (h : List.Chain' (fun a b => toOrd a < toOrd b) (y :: ys)) :
    List.Chain' (fun a b => toOrd a < toOrd b) (x :: ys) := by
  cases ys with
  | nil => simp
  | cons z zs =>
    rcases List.chain'_cons.mp h with ⟨hyz, hz⟩
    exact List.chain'_cons.mpr ⟨hxy.trans hyz, hz⟩

theorem chain'_head_le : ∀ (xs : List Date) (x : Date),
    List.Chain' (fun a b => toOrd a < toOrd b) (x :: xs) →
    ∀ a ∈ x :: xs, toOrd x ≤ toOrd a := by
  intro xs
  induction xs with
  | nil =>
    intro x _ a ha
    simp only [List.mem_singleton] at ha
    subst ha
    exact le_refl _
  | cons y ys ih =>
    intro x hch a ha
    rcases List.chain'_cons.mp hch with ⟨hxy, hch'⟩
    rcases List.mem_cons.mp ha with rfl | ha2
    · exact le_refl _
    · exact le_trans hxy.le (ih y hch' a ha2)

theorem foldMin_tie (target : Date) (xs : List Date) : ∀ x : Date,
    List.Chain' (fun a b => toOrd a < toOrd b) (x :: xs) →
    ∀ a ∈ x :: xs,
    distDays a target =
      distDays
        (xs.foldl (fun best yy => if distDays yy target < distDays best target then yy else best) x)
        target →
    toOrd
      (xs.foldl (fun best yy => if distDays yy target < distDays best target then yy else best) x)
      ≤ toOrd a := by
  induction xs with
  | nil =>
    intro x _ a ha _
    simp only [List.mem_singleton] at ha
    subst ha
    exact le_refl _
  | cons y ys ih =>
    intro x hch a ha htie
    rcases List.chain'_cons.mp hch with ⟨hxy, hch'⟩
    simp only [List.foldl_cons] at htie ⊢
    by_cases hc : distDays y target < distDays x target
    · rw [if_pos hc] at htie ⊢
      rcases List.mem_cons.mp ha with rfl | ha2
      · have h1 := foldMin_le target ys y y (List.mem_cons_self y ys)
        omega
      · exact ih y hch' a ha2 htie
    · rw [if_neg hc] at htie ⊢
      rcases List.mem_cons.mp ha with rfl | ha2
      · exact ih a (chain'_cons_of_cons hxy hch') a (List.mem_cons_self a ys) htie
      rcases List.mem_cons.mp ha2 with rfl | ha3
      · rcases foldMin_eq_or_lt target ys x with hEq | hLt
        · rw [hEq]; exact hxy.le
        · omega
      · exact ih x (chain'_cons_of_cons hxy hch') a (List.mem_cons_of_mem x ha3) htie

theorem chain'_rows_head_lt : ∀ (rs : List (Date × List ℚ)) (r : Date × List ℚ),
    List.Chain' (fun a b => toOrd a.1 < toOrd b.1) (r :: rs) →
    ∀ s ∈ rs, toOrd r.1 < toOrd s.1 := by
  intro rs
  induction rs with
  | nil =>
    intro r _ s hs
    simp at hs
  | cons t ts ih =>
    intro r hch s hs
    rcases List.chain'_cons.mp hch with ⟨hrt, hch'⟩
    rcases List.mem_cons.mp hs with rfl | hs2
    · exact hrt
    · exact hrt.trans (ih t hch' s hs2)

theorem filter_le_eq_takeWhile (c : Date) (l : List (Date × List ℚ))
    (hch : List.Chain' (fun a b => toOrd a.1 < toOrd b.1) l) :
    l.filter (fun row => dle row.1 c) = l.takeWhile (fun row => dle row.1 c) := by
  induction l with
  | nil => rfl
  | cons r rs ih =>
    have hch' : List.Chain' (fun a b => toOrd a.1 < toOrd b.1) rs := hch.tail
    cases hr : dle r.1 c with
    | true =>
      simp only [List.filter_cons, List.takeWhile_cons, hr, if_true]
      rw [ih hch']
    | false =>
      simp only [List.filter_cons, List.takeWhile_cons, hr]
      rw [if_neg (by simp), if_neg (by simp)]
      rw [List.filter_eq_nil_iff]
      intro s hs hsc
      have hrs : toOrd r.1 < toOrd s.1 := chain'_rows_head_lt rs r hch s hs
      simp only [dle, decide_eq_true_eq] at hsc
      simp only [dle, decide_eq_false_iff_not] at hr
      omega

/-- Python runtime value passed as `duration_months` (the numeric and string cases). -/
inductive PyVal where
  | int (z : ℤ)
  | float (q : ℚ)
  | str (s : String)
  deriving DecidableEq, Repr

/-- Python `type(v) == int`. -/
def PyVal.isInt : PyVal → Bool
  | .int _ => true
  | _ => false

/-- Exceptions raised by the pipeline, keyed by the taxonomy of the spec:
`validation` is `ValueError` with a semantic message, `dataUnavail` is the
`ValueError` that enumerates the offending tickers, `keyErr` is `KeyError`,
`indexErr` is `IndexError` from an out-of-bounds positional access, and
`typeErr` is `TypeError` from an unsupported comparison. -/
inductive PyError where
  | validation (msg : String)
  | keyErr (key : String)
  | dataUnavail (bad : List String)
  | indexErr
  | typeErr
  deriving DecidableEq, Repr

/-- Python `duration_months <= 0`: defined for numbers, raises `TypeError`
when the left operand is a string. -/
def pyLeZero : PyVal → Except PyError Bool
  | .int z => .ok (decide (z ≤ 0))
  | .float q => .ok (decide (q ≤ 0))
  | .str _ => .error .typeErr

/-- Integer content of a `PyVal`; only consulted on the `.int` path of
`backtest_resample`, after the type guard has passed. -/
def pyToInt : PyVal → ℤ
  | .int z => z
  | .float q => ⌊q⌋
  | .str _ => 0

/-- A return table: `ncols` instrument columns, rows indexed by ascending dates,
cells are the monthly fractional returns. -/
structure ReturnSeries where
  ncols : Nat
  rows : List (Date × List ℚ)
  deriving DecidableEq, Repr

/-- Column `j` of the table, as the list of its cells over all rows. -/
def colVals (rows : List (Date × List ℚ)) (j : Nat) : List ℚ :=
  rows.map (fun r => r.2.getD j 0)

/-- Arithmetic mean of a list of rationals. -/
def listMean (xs : List ℚ) : ℚ := xs.sum / xs.length

/-- Pandas sample covariance of two columns (ddof = 1): `NaN` (modelled as
`none`) when there are fewer than two observations. -/
def sampleCov (xs ys : List ℚ) : Option ℚ :=
  if xs.length ≤ 1 then none
  else
    some ((List.zipWith (fun a b => (a - listMean xs) * (b - listMean ys)) xs ys).sum /
      ((xs.length : ℚ) - 1))

/-- Pandas sample variance of a column (ddof = 1). -/
def sampleVar (xs : List ℚ) : Option ℚ := sampleCov xs xs

/-- Pandas sample standard deviation (`DataFrame.std`, ddof = 1): the square
root of the sample variance, `NaN` (modelled as `none`) on fewer than two
observations. -/
noncomputable def sampleStd (xs : List ℚ) : Option ℝ :=
  (sampleVar xs).map (fun v => Real.sqrt (v : ℝ))

/-- The `[returns, volatilities, covariance_matrix]` result list of
`construct_key_metrics`, as a record in the same order. -/
structure RiskMetrics where
  returns : ReturnSeries
  volatilities : List (Option ℝ)
  covariance : List (List (Option ℚ))

/-- `construct_key_metrics(returns)`: per-column sample standard deviation and
the full sample covariance matrix, recomputed from scratch. -/
noncomputable def construct_key_metrics (r : ReturnSeries) : RiskMetrics where
  returns := r
  volatilities := (List.range r.ncols).map (fun j => sampleStd (colVals r.rows j))
  covariance :=
    (List.range r.ncols).map (fun i =>
      (List.range r.ncols).map (fun j => sampleCov (colVals r.rows i) (colVals r.rows j)))

/-- The string of the `RuntimeError` raised when the covariance computation
fails.  The source writes `'... shape: {returns.shape}'` WITHOUT the `f`
prefix, so the braces are literal text, not an interpolation; the function
ignores its argument accordingly. -/
def covErrMsg (_returns : ReturnSeries) : String :=
  "Error calculating covariance matrix. Returns matrix of shape: \x7breturns.shape\x7d"

/-- The string of the `RuntimeError` raised when the volatility computation
fails; like `covErrMsg` it is a plain (non-f) string literal. -/
def volErrMsg (_returns : ReturnSeries) : String :=
  "Error calculating volatilities. Returns matrix of shape: \x7breturns.shape\x7d"

/-- The `(rows, cols)` shape of a return table. -/
def tableShape (r : ReturnSeries) : Nat × Nat := (r.rows.length, r.ncols)

/-- Message of the `ValueError` raised by the positivity/type guard of
`backtest_resample` (the source appends the offending value and type via an
f-string; the constant prefix identifies the raise site). -/
def durationPositiveMsg : String := "Duration must be a positive integer."

/-- Message of the `ValueError` raised when the requested duration exceeds the
available history. -/
def durationExceedsMsg : String := "Duration exceeds the length of the returns DataFrame."

/-- `backtest_resample(returns, duration_months)`: validate the duration, snap
`start + relativedelta(months=duration_months)` to the nearest row date, cut
the table at that date (inclusive) and recompute the key metrics on the cut. -/
noncomputable def backtest_resample (returns : ReturnSeries) (duration_months : PyVal) :
    Except PyError RiskMetrics :=
  match pyLeZero duration_months with
  | .error e => .error e
  | .ok nonpos =>
    if nonpos || !duration_months.isInt then .error (.validation durationPositiveMsg)
    else
      match returns.rows with
      | [] => .error .indexErr
      | r0 :: rest =>
        let start_date := r0.1
        let full_dates := (r0 :: rest).map Prod.fst
        let end_date := addMonths start_date (pyToInt duration_months).toNat
        if toOrd ((r0 :: rest).getLastD r0).1 < toOrd end_date ∧
            pyToInt duration_months ≠ ((r0 :: rest).length : ℤ) then
          .error (.validation durationExceedsMsg)
        else
          let closest_date := closestTo end_date full_dates
          let durated := (r0 :: rest).filter
            (fun row => dle start_date row.1 && dle row.1 closest_date)
          .ok (construct_key_metrics { ncols := returns.ncols, rows := durated })

/-- Python `max` over a list (first element seeds the fold); `none` models the
`ValueError` on an empty sequence. -/
def pyListMax : List ℤ → Option ℤ
  | [] => none
  | x :: xs => some (xs.foldl max x)

/-- Python `min` over a list. -/
def pyListMin : List ℤ → Option ℤ
  | [] => none
  | x :: xs => some (xs.foldl min x)

/-- The `bad_etfs` list: tickers whose earliest observed year differs from the
requested start year, in input order. -/
def badTickers (tickers : List String) (years : List ℤ) (startYear : ℤ) : List String :=
  ((tickers.zip years).filter (fun p => p.2 != startYear)).map Prod.fst

/-- The cross-instrument availability check of `retrieve_historical_returns`
(step 7): fail when the earliest years disagree and their maximum is not the
requested start year. -/
def availabilityCheck (tickers : List String) (years : List ℤ) (startYear : ℤ) :
    Except PyError Unit :=
  match pyListMax years, pyListMin years with
  | some mx, some mn =>
    if mx ≠ mn ∧ mx ≠ startYear then
      .error (.dataUnavail (badTickers tickers years startYear))
    else .ok ()
  | _, _ => .error (.validation "max arg is an empty sequence")

/-- Numeric value of a decimal digit character. -/
def digitVal (c : Char) : Nat := c.toNat - 48

/-- Parse one or two leading decimal digits (greedy), returning the value and
the remaining characters; models the 1-2 digit fields of `strptime` `%m`/`%d`. -/
def take2Digits : List Char → Option (Nat × List Char)
  | c1 :: c2 :: rest =>
    if c1.isDigit then
      if c2.isDigit then some (digitVal c1 * 10 + digitVal c2, rest)
      else some (digitVal c1, c2 :: rest)
    else none
  | [c1] => if c1.isDigit then some (digitVal c1, []) else none
  | [] => none

/-- `datetime.datetime.strptime(s, "%Y-%m-%d")`: exactly four year digits,
one or two month and day digits, the whole string consumed, and the result a
valid calendar date (`datetime` also requires year ≥ 1).  Returns the parsed
date, or `none` for the `ValueError` raise. -/
def strptimeYmd (s : String) : Option Date :=
  match s.toList with
  | c1 :: c2 :: c3 :: c4 :: '-' :: rest =>
    if c1.isDigit && c2.isDigit && c3.isDigit && c4.isDigit then
      match take2Digits rest with
      | some (m, '-' :: rest2) =>
        match take2Digits rest2 with
        | some (d, []) =>
          if 1 ≤ ((digitVal c1 * 10 + digitVal c2) * 10 + digitVal c3) * 10 + digitVal c4 ∧
              1 ≤ m ∧ m ≤ 12 ∧ 1 ≤ d ∧
              d ≤ daysInMonth
                (((digitVal c1 * 10 + digitVal c2) * 10 + digitVal c3) * 10 + digitVal c4) m then
            some ⟨((digitVal c1 * 10 + digitVal c2) * 10 + digitVal c3) * 10 + digitVal c4, m, d⟩
          else none
        | _ => none
      | _ => none
    else none
  | _ => none

/-- Modelled from the spec: a string "matches the format YYYY-MM-DD" — four
year digits, a dash, exactly two month digits, a dash, exactly two day digits,
denoting a valid calendar date (the spec counts "2024-13-40" as non-matching).
This is the comparator for the spec's wording; the source uses `strptimeYmd`. -/
def specFormatYmd (s : String) : Bool :=
  match s.toList with
  | [c1, c2, c3, c4, '-', c5, c6, '-', c7, c8] =>
    c1.isDigit && c2.isDigit && c3.isDigit && c4.isDigit && c5.isDigit && c6.isDigit &&
    c7.isDigit && c8.isDigit &&
    decide (1 ≤ ((digitVal c1 * 10 + digitVal c2) * 10 + digitVal c3) * 10 + digitVal c4 ∧
      1 ≤ digitVal c5 * 10 + digitVal c6 ∧ digitVal c5 * 10 + digitVal c6 ≤ 12 ∧
      1 ≤ digitVal c7 * 10 + digitVal c8 ∧
      digitVal c7 * 10 + digitVal c8 ≤
        daysInMonth (((digitVal c1 * 10 + digitVal c2) * 10 + digitVal c3) * 10 + digitVal c4)
          (digitVal c5 * 10 + digitVal c6))
  | _ => false

/-- The nine accepted period tokens of step 6. -/
def acceptedIntervalValues : List String :=
  ["1d", "5d", "1mo", "3mo", "6mo", "1y", "2y", "5y", "10y"]

/-- Message of the `ValueError` raised by the date-format check (step 5). -/
def invalidDateMsg : String := "Invalid date format in sample_period_end, expected YYYY-MM-DD."

/-- Message of the `ValueError` raised by the interval-token check (step 6);
the source string lacks the `f` prefix, so `\x7bkey\x7d` is literal text. -/
def invalidIntervalMsg : String :=
  "Invalid date format in \x7bkey\x7d, accepted values include: \x271d\x27, \x275d\x27, \x271mo\x27, \x273mo\x27, \x276mo\x27, \x271y\x27, \x272y\x27, \x275y\x27, \x2710y\x27."

/-- Steps 5 and 6 of `retrieve_historical_returns` on the `dataParameters`
mapping (modelled as an association list in document order): validate
`sample_period_end` against `%Y-%m-%d`, then require every other value to be
an accepted period token. -/
def validateParams (params : List (String × String)) : Except PyError Unit :=
  match params.lookup "sample_period_end" with
  | none => .error (.keyErr "sample_period_end")
  | some spe =>
    if (strptimeYmd spe).isNone then .error (.validation invalidDateMsg)
    else if params.any
        (fun kv => kv.1 != "sample_period_end" && !(decide (kv.2 ∈ acceptedIntervalValues))) then
      .error (.validation invalidIntervalMsg)
    else .ok ()

/-- Index of the calendar month of a date on the infinite month axis. -/
def monthIdx (a : Date) : Nat := a.y * 12 + (a.m - 1)

/-- The month-end date labelling month index `mi` (what `resample('ME')` uses
as the row label). -/
def monthEndOfIdx (mi : Nat) : Date := monthEnd (mi / 12) (mi % 12 + 1)

/-- Last non-missing value of a column within one resample group
(`Resampler.last` skips NaN and yields NaN for an all-missing group). -/
def lastObs (cells : List (Option ℚ)) : Option ℚ :=
  cells.foldl (fun acc c => if c.isSome then c else acc) none

/-- `data.resample('ME').last()`: one row per calendar month from the first to
the last observed month, labelled by the month-end date, holding the last
non-missing observation of each column in that month (missing cells, and
months without observations, are NaN = `none`). -/
def resampleME (ncols : Nat) (data : List (Date × List (Option ℚ))) :
    List (Date × List (Option ℚ)) :=
  match data with
  | [] => []
  | d0 :: rest =>
    (List.range (monthIdx ((d0 :: rest).getLastD d0).1 - monthIdx d0.1 + 1)).map (fun i =>
      (monthEndOfIdx (monthIdx d0.1 + i),
        (List.range ncols).map (fun j =>
          lastObs (((d0 :: rest).filter
            (fun r => monthIdx r.1 == monthIdx d0.1 + i)).map (fun r => r.2.getD j none)))))

/-- One cell of `pct_change()`: fractional change against the previous row,
NaN (`none`) when either observation is missing. -/
def pctCell (prev cur : Option ℚ) : Option ℚ :=
  match prev, cur with
  | some p, some c => some ((c - p) / p)
  | _, _ => none

/-- Rows of `pct_change()` after the first, each computed against the cells of
the previous row. -/
def pctRest (prev : List (Option ℚ)) :
    List (Date × List (Option ℚ)) → List (Date × List (Option ℚ))
  | [] => []
  | (dt, cs) :: rest => (dt, List.zipWith pctCell prev cs) :: pctRest cs rest

/-- `DataFrame.pct_change()`: row-over-row fractional change; the first row
has no predecessor, so all of its cells are NaN (`none`). -/
def pctChange : List (Date × List (Option ℚ)) → List (Date × List (Option ℚ))
  | [] => []
  | (dt, cs) :: rest => (dt, cs.map (fun _ => (none : Option ℚ))) :: pctRest cs rest

/-- `returns.fillna(0)`: every NaN cell becomes 0; defined cells are kept. -/
def fillZero (rows : List (Date × List (Option ℚ))) : List (Date × List (Option ℚ)) :=
  rows.map (fun r => (r.1, r.2.map (fun c => some (c.getD 0))))

/-- Steps 8-10 of `retrieve_historical_returns` applied to the fetched
adjusted-close table: resample to month ends, take percent changes, fill NaN
with 0. -/
def processReturns (ncols : Nat) (data : List (Date × List (Option ℚ))) :
    List (Date × List (Option ℚ)) :=
  fillZero (pctChange (resampleME ncols data))

theorem foldlMax_mem : ∀ (xs : List ℤ) (x : ℤ), xs.foldl max x ∈ x :: xs := by
  intro xs
  induction xs with
  | nil => intro x; simp
  | cons y ys ih =>
    intro x
    simp only [List.foldl_cons]
    rcases List.mem_cons.mp (ih (max x y)) with h1 | h2
    · rw [h1]
      rcases max_choice x y with h | h <;> rw [h] <;> simp
    · simp [h2]

theorem le_foldlMax : ∀ (xs : List ℤ) (x : ℤ), ∀ a ∈ x :: xs, a ≤ xs.foldl max x := by
  intro xs
  induction xs with
  | nil =>
    intro x a ha
    simp only [List.mem_singleton] at ha
    subst ha
    simp
  | cons y ys ih =>
    intro x a ha
    simp only [List.foldl_cons]
    have hx : x ≤ ys.foldl max (max x y) :=
      le_trans (le_max_left x y) (ih (max x y) (max x y) (List.mem_cons_self _ _))
    have hy : y ≤ ys.foldl max (max x y) :=
      le_trans (le_max_right x y) (ih (max x y) (max x y) (List.mem_cons_self _ _))
    rcases List.mem_cons.mp ha with rfl | ha2
    · exact hx
    rcases List.mem_cons.mp ha2 with rfl | ha3
    · exact hy
    · exact ih (max x y) a (List.mem_cons_of_mem _ ha3)

theorem foldlMin_mem : ∀ (xs : List ℤ) (x : ℤ), xs.foldl min x ∈ x :: xs := by
  intro xs
  induction xs with
  | nil => intro x; simp
  | cons y ys ih =>
    intro x
    simp only [List.foldl_cons]
    rcases List.mem_cons.mp (ih (min x y)) with h1 | h2
    · rw [h1]
      rcases min_choice x y with h | h <;> rw [h] <;> simp
    · simp [h2]

theorem foldlMin_le : ∀ (xs : List ℤ) (x : ℤ), ∀ a ∈ x :: xs, xs.foldl min x ≤ a := by
  intro xs
  induction xs with
  | nil =>
    intro x a ha
    simp only [List.mem_singleton] at ha
    subst ha
    simp
  | cons y ys ih =>
    intro x a ha
    simp only [List.foldl_cons]
    have hx : ys.foldl min (min x y) ≤ x :=
      le_trans (ih (min x y) (min x y) (List.mem_cons_self _ _)) (min_le_left x y)
    have hy : ys.foldl min (min x y) ≤ y :=
      le_trans (ih (min x y) (min x y) (List.mem_cons_self _ _)) (min_le_right x y)
    rcases List.mem_cons.mp ha with rfl | ha2
    · exact hx
    rcases List.mem_cons.mp ha2 with rfl | ha3
    · exact hy
    · exact ih (min x y) a (List.mem_cons_of_mem _ ha3)

theorem foldMaxMin_ne_iff (y0 : ℤ) (ys : List ℤ) :
    ys.foldl max y0 ≠ ys.foldl min y0 ↔ ∃ a ∈ y0 :: ys, ∃ b ∈ y0 :: ys, a ≠ b := by
  constructor
  · intro h
    exact ⟨ys.foldl max y0, foldlMax_mem ys y0, ys.foldl min y0, foldlMin_mem ys y0, h⟩
  · rintro ⟨a, ha, b, hb, hab⟩ hEq
    have h1 := le_foldlMax ys y0 a ha
    have h2 := le_foldlMax ys y0 b hb
    have h3 := foldlMin_le ys y0 a ha
    have h4 := foldlMin_le ys y0 b hb
    omega

/-- C1: over a non-empty list of fetched earliest years, `availabilityCheck`
raises `DataUnavailable` exactly when the earliest years take more than one
distinct value and their maximum differs from the requested start year; the
error names exactly the tickers whose earliest year differs from the start
year, and otherwise (all years equal, or the maximum equal to the start
year) the builder proceeds. -/
theorem c1_availability_check (tickers : List String) (y0 : ℤ) (ys : List ℤ) (startYear : ℤ) :
    (availabilityCheck tickers (y0 :: ys) startYear =
        .error (.dataUnavail (badTickers tickers (y0 :: ys) startYear)) ↔
      ((∃ a ∈ y0 :: ys, ∃ b ∈ y0 :: ys, a ≠ b) ∧ ys.foldl max y0 ≠ startYear)) ∧
    (∀ t : String, t ∈ badTickers tickers (y0 :: ys) startYear ↔
      ∃ p ∈ tickers.zip (y0 :: ys), p.1 = t ∧ p.2 ≠ startYear) ∧
    (((∀ a ∈ y0 :: ys, a = y0) ∨ ys.foldl max y0 = startYear) →
      availabilityCheck tickers (y0 :: ys) startYear = .ok ()) := by
  refine ⟨⟨?_, ?_⟩, ?_, ?_⟩
  · intro h
    by_cases hcond : ys.foldl max y0 ≠ ys.foldl min y0 ∧ ys.foldl max y0 ≠ startYear
    · exact ⟨(foldMaxMin_ne_iff y0 ys).mp hcond.1, hcond.2⟩
    · exfalso
      have hok : availabilityCheck tickers (y0 :: ys) startYear = .ok () := by
        simp only [availabilityCheck, pyListMax, pyListMin]
        rw [if_neg hcond]
      rw [hok] at h
      exact Except.noConfusion h
  · rintro ⟨hd, hne⟩
    have hcond : ys.foldl max y0 ≠ ys.foldl min y0 ∧ ys.foldl max y0 ≠ startYear :=
      ⟨(foldMaxMin_ne_iff y0 ys).mpr hd, hne⟩
    simp only [availabilityCheck, pyListMax, pyListMin]
    rw [if_pos hcond]
  · intro t
    simp only [badTickers, List.mem_map, List.mem_filter, bne_iff_ne, ne_eq]
    constructor
    · rintro ⟨p, ⟨hp, hps⟩, rfl⟩
      exact ⟨p, hp, rfl, hps⟩
    · rintro ⟨p, hp, rfl, hps⟩
      exact ⟨p, ⟨hp, hps⟩, rfl⟩
  · intro hall
    have hcond : ¬ (ys.foldl max y0 ≠ ys.foldl min y0 ∧ ys.foldl max y0 ≠ startYear) := by
      rcases hall with h | h
      · rintro ⟨h1, _⟩
        apply h1
        have hmx := h _ (foldlMax_mem ys y0)
        have hmn := h _ (foldlMin_mem ys y0)
        rw [hmx, hmn]
      · rintro ⟨_, h2⟩
        exact h2 h
    simp only [availabilityCheck, pyListMax, pyListMin]
    rw [if_neg hcond]

/-- C6: the messages of the `RuntimeError`s raised when a statistical
reduction fails are independent of the input table (the source's strings lack
the `f` prefix, so `\x7breturns.shape\x7d` is literal text), hence they cannot
report the input's shape even though the shapes of distinct inputs differ. -/
theorem c6_error_message_ignores_shape :
    (∀ r1 r2 : ReturnSeries, covErrMsg r1 = covErrMsg r2 ∧ volErrMsg r1 = volErrMsg r2) ∧
    tableShape ⟨2, [(⟨2020, 1, 31⟩, [0, 0]), (⟨2020, 2, 29⟩, [1, 1])]⟩ ≠ tableShape ⟨3, []⟩ :=
  ⟨fun _ _ => ⟨rfl, rfl⟩, by decide⟩

theorem backtest_resample_nil (nc : Nat) (z : ℤ) (hz : 0 < z) :
    backtest_resample ⟨nc, []⟩ (.int z) = .error .indexErr := by
  unfold backtest_resample
  simp only [pyLeZero, pyToInt, PyVal.isInt, Bool.not_true, Bool.or_false]
  rw [if_neg (by simp; omega)]

theorem backtest_resample_cons (nc : Nat) (r0 : Date × List ℚ) (rest : List (Date × List ℚ))
    (z : ℤ) (hz : 0 < z) :
    backtest_resample ⟨nc, r0 :: rest⟩ (.int z) =
      if toOrd ((r0 :: rest).getLastD r0).1 < toOrd (addMonths r0.1 z.toNat) ∧
          z ≠ ((r0 :: rest).length : ℤ) then
        .error (.validation durationExceedsMsg)
      else
        .ok (construct_key_metrics
          { ncols := nc,
            rows := (r0 :: rest).filter (fun row => dle r0.1 row.1 &&
              dle row.1 (closestTo (addMonths r0.1 z.toNat) ((r0 :: rest).map Prod.fst))) }) := by
  unfold backtest_resample
  simp only [pyLeZero, pyToInt, PyVal.isInt, Bool.not_true, Bool.or_false]
  rw [if_neg (by simp; omega)]

/-- C7 (counterexample): a non-integer, non-numeric `duration_months` (the
string "5") makes `backtest_resample` raise `TypeError` from the comparison
`duration_months <= 0`, not the claimed `ValidationError`. -/
theorem c7_counterexample :
    backtest_resample ⟨1, [(⟨2020, 1, 31⟩, [0])]⟩ (.str "5") = .error .typeErr ∧
    ∀ msg : String, (PyError.typeErr ≠ PyError.validation msg) :=
  ⟨rfl, fun _ h => PyError.noConfusion h⟩

/-- C7 (amended): `backtest_resample` raises the positivity/type
`ValidationError` exactly for numeric inputs that are not positive integers:
integers `z ≤ 0` and every float (Python `type(v) != int`); every positive
integer passes this guard, and non-numeric inputs raise `TypeError` instead. -/
theorem c7_duration_guard (r : ReturnSeries) (dm : PyVal) :
    backtest_resample r dm = .error (.validation durationPositiveMsg) ↔
      ((∃ z : ℤ, dm = .int z ∧ z ≤ 0) ∨ (∃ q : ℚ, dm = .float q)) := by
  cases dm with
  | int z =>
    by_cases hz : z ≤ 0
    · constructor
      · intro _
        exact Or.inl ⟨z, rfl, hz⟩
      · intro _
        unfold backtest_resample
        simp [pyLeZero, PyVal.isInt, hz]
    · obtain ⟨nc, rows⟩ := r
      constructor
      · intro h
        exfalso
        cases rows with
        | nil =>
          rw [backtest_resample_nil nc z (by omega)] at h
          injection h with h2
          exact PyError.noConfusion h2
        | cons r0 rest =>
          rw [backtest_resample_cons nc r0 rest z (by omega)] at h
          split at h
          · injection h with h2
            have hmsg := PyError.validation.inj h2
            exact absurd hmsg (by decide)
          · exact Except.noConfusion h
      · rintro (⟨z2, hz2, hle⟩ | ⟨q, hq⟩)
        · rw [PyVal.int.inj hz2] at hz
          exact absurd hle hz
        · exact PyVal.noConfusion hq
  | float q =>
    constructor
    · intro _
      exact Or.inr ⟨q, rfl⟩
    · intro _
      unfold backtest_resample
      simp [pyLeZero, PyVal.isInt]
  | str s =>
    constructor
    · intro h
      injection h with h2
      exact PyError.noConfusion h2
    · rintro (⟨z2, hz2, _⟩ | ⟨q, hq⟩)
      · exact PyVal.noConfusion hz2
      · exact PyVal.noConfusion hq

/-- C10: on the empty return table, `backtest_resample` with any positive
integer duration fails with `IndexError` (reading `returns.index[0]`), which
is not a `ValidationError`; on any non-empty table the first- and last-row
accesses are in bounds. -/
theorem c10_empty_table (nc : Nat) (z : ℤ) (hz : 0 < z) :
    (backtest_resample ⟨nc, []⟩ (.int z) = .error .indexErr ∧
      ∀ msg : String, (PyError.indexErr ≠ PyError.validation msg)) ∧
    (∀ r : ReturnSeries, r.rows ≠ [] →
      (r.rows.head?).isSome = true ∧ (r.rows.getLast?).isSome = true) := by
  constructor
  · constructor
    · exact backtest_resample_nil nc z hz
    · exact fun _ h => PyError.noConfusion h
  · intro r hr
    cases hrows : r.rows with
    | nil => exact absurd hrows hr
    | cons r0 rest =>
      constructor
      · simp
      · simp [List.getLast?_eq_getLast]

/-- C10 (witness): the empty-table behaviour applied at the concrete duration 1. -/
theorem c10_witness :
    (backtest_resample ⟨1, []⟩ (.int 1) = .error .indexErr ∧
      ∀ msg : String, (PyError.indexErr ≠ PyError.validation msg)) ∧
    (∀ r : ReturnSeries, r.rows ≠ [] →
      (r.rows.head?).isSome = true ∧ (r.rows.getLast?).isSome = true) :=
  c10_empty_table 1 1 (by decide)

/-- C8 (counterexample): the document value `sample_period_end = "2024-1-1"`
does not match the format `YYYY-MM-DD` (month and day are not two digits) and
every other value is an accepted token, yet the validator accepts the
document — `strptime("%Y-%m-%d")` also admits one-digit month and day. -/
theorem c8_counterexample :
    validateParams [("sample_time_step", "1mo"), ("total_sample_period", "5y"),
        ("sample_period_end", "2024-1-1")] = .ok () ∧
    specFormatYmd "2024-1-1" = false ∧
    ([("sample_time_step", "1mo"), ("total_sample_period", "5y"),
        ("sample_period_end", "2024-1-1")] : List (String × String)).any
      (fun kv => kv.1 != "sample_period_end" && !(decide (kv.2 ∈ acceptedIntervalValues)))
      = false :=
  ⟨rfl, rfl, rfl⟩

/-- C8 (amended): for a document whose `dataParameters` passed the schema
checks, the validator raises `ValidationError` exactly when
`sample_period_end` fails to parse under `strptime("%Y-%m-%d")` (four year
digits, one or two month/day digits, a valid calendar date) or some value
under a key other than `sample_period_end` is not one of the nine accepted
period tokens. -/
theorem c8_validator (params : List (String × String)) (spe : String)
    (hspe : params.lookup "sample_period_end" = some spe) :
    (∃ msg, validateParams params = .error (.validation msg)) ↔
      ((strptimeYmd spe).isNone = true ∨
        ∃ kv ∈ params, kv.1 ≠ "sample_period_end" ∧ kv.2 ∉ acceptedIntervalValues) := by
  have heq : validateParams params =
      (if (strptimeYmd spe).isNone = true then Except.error (PyError.validation invalidDateMsg)
       else if params.any
          (fun kv => kv.1 != "sample_period_end" && !(decide (kv.2 ∈ acceptedIntervalValues)))
          = true then
        Except.error (PyError.validation invalidIntervalMsg)
       else Except.ok ()) := by
    unfold validateParams
    rw [hspe]
  rw [heq]
  by_cases h1 : (strptimeYmd spe).isNone = true
  · rw [if_pos h1]
    exact ⟨fun _ => Or.inl h1, fun _ => ⟨invalidDateMsg, rfl⟩⟩
  · rw [if_neg h1]
    by_cases h2 : params.any
        (fun kv => kv.1 != "sample_period_end" && !(decide (kv.2 ∈ acceptedIntervalValues)))
        = true
    · rw [if_pos h2]
      constructor
      · intro _
        right
        rcases List.any_eq_true.mp h2 with ⟨kv, hkv, hp⟩
        simp only [Bool.and_eq_true, bne_iff_ne, ne_eq, Bool.not_eq_true',
          decide_eq_false_iff_not] at hp
        exact ⟨kv, hkv, hp.1, hp.2⟩
      · intro _
        exact ⟨invalidIntervalMsg, rfl⟩
    · rw [if_neg h2]
      constructor
      · rintro ⟨msg, hmsg⟩
        exact Except.noConfusion hmsg
      · rintro (h | ⟨kv, hkv, hk1, hk2⟩)
        · exact absurd h h1
        · exact absurd (List.any_eq_true.mpr ⟨kv, hkv, by
            simp only [Bool.and_eq_true, bne_iff_ne, ne_eq, Bool.not_eq_true',
              decide_eq_false_iff_not]
            exact ⟨hk1, hk2⟩⟩) h2

/-- C8 (witness): the amended validator characterisation applied to a concrete
document carrying the spec's example `sample_period_end = "2024-13-40"`. -/
theorem c8_witness :
    ([("sample_time_step", "1mo"), ("total_sample_period", "5y"),
        ("sample_period_end", "2024-13-40")] : List (String × String)).lookup
        "sample_period_end" = some "2024-13-40" ∧
    ((∃ msg, validateParams [("sample_time_step", "1mo"), ("total_sample_period", "5y"),
        ("sample_period_end", "2024-13-40")] = .error (.validation msg)) ↔
      ((strptimeYmd "2024-13-40").isNone = true ∨
        ∃ kv ∈ ([("sample_time_step", "1mo"), ("total_sample_period", "5y"),
          ("sample_period_end", "2024-13-40")] : List (String × String)),
          kv.1 ≠ "sample_period_end" ∧ kv.2 ∉ acceptedIntervalValues)) :=
  ⟨rfl, c8_validator _ "2024-13-40" rfl⟩

theorem zipWith_sq_sum_nonneg (c : ℚ) (xs : List ℚ) :
    0 ≤ (List.zipWith (fun a b => (a - c) * (b - c)) xs xs).sum := by
  induction xs with
  | nil => simp
  | cons x txs ih =>
    simp only [List.zipWith_cons_cons, List.sum_cons]
    have := mul_self_nonneg (x - c)
    linarith

/-- C9 (counterexample): on a single-row series the sample standard deviation
(ddof = 1) is NaN, so the volatility value is not a non-negative real. -/
theorem c9_counterexample :
    ¬ ∀ v ∈ (construct_key_metrics ⟨1, [(⟨2020, 1, 31⟩, [0])]⟩).volatilities,
        ∃ x : ℝ, v = some x ∧ 0 ≤ x := by
  intro h
  have hv : (construct_key_metrics ⟨1, [(⟨2020, 1, 31⟩, [0])]⟩).volatilities = [none] := rfl
  have hmem : (none : Option ℝ) ∈
      (construct_key_metrics ⟨1, [(⟨2020, 1, 31⟩, [0])]⟩).volatilities := by
    rw [hv]
    exact List.mem_singleton.mpr rfl
  obtain ⟨x, hx, _⟩ := h none hmem
  exact Option.noConfusion hx

/-- C9 (amended): on a series with at least two rows, every volatility in the
engine's bundle is the square root of a non-negative sample variance
(ddof = 1), hence a defined, non-negative real; a single-row series instead
yields NaN volatilities. -/
theorem c9_volatility_nonneg (r : ReturnSeries) (h2 : 2 ≤ r.rows.length) :
    ∀ v ∈ (construct_key_metrics r).volatilities,
      ∃ q : ℚ, 0 ≤ q ∧ v = some (Real.sqrt (q : ℝ)) ∧ (0 : ℝ) ≤ Real.sqrt (q : ℝ) := by
  intro v hv
  simp only [construct_key_metrics, List.mem_map, List.mem_range] at hv
  obtain ⟨j, _, rfl⟩ := hv
  have hlen : (colVals r.rows j).length = r.rows.length := by simp [colVals]
  obtain ⟨q, hq, hq0⟩ : ∃ q, sampleVar (colVals r.rows j) = some q ∧ 0 ≤ q := by
    unfold sampleVar sampleCov
    rw [if_neg (by omega)]
    refine ⟨_, rfl, ?_⟩
    apply div_nonneg
    · exact zipWith_sq_sum_nonneg (listMean (colVals r.rows j)) (colVals r.rows j)
    · have hl2 : 2 ≤ (colVals r.rows j).length := by omega
      have hl2' : (2 : ℚ) ≤ ((colVals r.rows j).length : ℚ) := by exact_mod_cast hl2
      linarith
  exact ⟨q, hq0, by simp [sampleStd, hq], Real.sqrt_nonneg _⟩

/-- C9 (witness): the amended volatility bound applied to a concrete
two-row series. -/
theorem c9_witness :
    2 ≤ (ReturnSeries.mk 1 [(⟨2020, 1, 31⟩, [0]), (⟨2020, 2, 29⟩, [1])]).rows.length ∧
    ∀ v ∈ (construct_key_metrics
        (ReturnSeries.mk 1 [(⟨2020, 1, 31⟩, [0]), (⟨2020, 2, 29⟩, [1])])).volatilities,
      ∃ q : ℚ, 0 ≤ q ∧ v = some (Real.sqrt (q : ℝ)) ∧ (0 : ℝ) ≤ Real.sqrt (q : ℝ) :=
  ⟨by decide, c9_volatility_nonneg _ (by decide)⟩

theorem fillZero_defined (l : List (Date × List (Option ℚ))) :
    ∀ row ∈ fillZero l, ∀ c ∈ row.2, c.isSome = true := by
  intro row hrow c hc
  simp only [fillZero, List.mem_map] at hrow
  obtain ⟨r, _, rfl⟩ := hrow
  simp only [List.mem_map] at hc
  obtain ⟨c0, _, rfl⟩ := hc
  rfl

/-- C5: for any fetched price table, the built return series is non-empty
whenever the input is, every cell of its first row is 0 (the synthetic
`pct_change` first row, coerced by `fillna(0)`), and no cell anywhere in the
table is undefined (`fillna(0)` leaves no NaN). -/
theorem c5_first_row_and_cells (ncols : Nat) (data : List (Date × List (Option ℚ)))
    (hne : data ≠ []) :
    processReturns ncols data ≠ [] ∧
    (∀ first rest2, processReturns ncols data = first :: rest2 → ∀ c ∈ first.2, c = some 0) ∧
    (∀ row ∈ processReturns ncols data, ∀ c ∈ row.2, c.isSome = true) := by
  obtain ⟨d0, rest, rfl⟩ := List.exists_cons_of_ne_nil hne
  have hres : resampleME ncols (d0 :: rest) ≠ [] := by
    unfold resampleME
    simp only [ne_eq, List.map_eq_nil_iff, List.range_eq_nil]
    omega
  obtain ⟨x, xs, hx⟩ := List.exists_cons_of_ne_nil hres
  obtain ⟨dt, cs⟩ := x
  have hproc : processReturns ncols (d0 :: rest) =
      (dt, (cs.map (fun _ => (none : Option ℚ))).map (fun c => some (c.getD 0))) ::
        fillZero (pctRest cs xs) := by
    unfold processReturns
    rw [hx]
    rfl
  refine ⟨?_, ?_, ?_⟩
  · rw [hproc]
    exact List.cons_ne_nil _ _
  · intro first rest2 hfr
    rw [hproc] at hfr
    injection hfr with h1 _
    subst h1
    intro c hc
    simp only [List.map_map, List.mem_map] at hc
    obtain ⟨c0, _, rfl⟩ := hc
    rfl
  · exact fun row hrow c hc => fillZero_defined _ row hrow c hc

/-- C5 (witness): the builder invariants applied to a concrete one-ticker
price history. -/
theorem c5_witness :
    ([((⟨2020, 1, 15⟩ : Date), [some (10 : ℚ)])] : List (Date × List (Option ℚ))) ≠ [] ∧
    (processReturns 1 [((⟨2020, 1, 15⟩ : Date), [some (10 : ℚ)])] ≠ [] ∧
      (∀ first rest2, processReturns 1 [((⟨2020, 1, 15⟩ : Date), [some (10 : ℚ)])]
          = first :: rest2 → ∀ c ∈ first.2, c = some 0) ∧
      (∀ row ∈ processReturns 1 [((⟨2020, 1, 15⟩ : Date), [some (10 : ℚ)])],
        ∀ c ∈ row.2, c.isSome = true)) :=
  ⟨by simp, c5_first_row_and_cells 1 _ (by simp)⟩

/-- C2: for a non-empty series and a positive integer duration,
`backtest_resample` raises the duration-exceeds `ValidationError` exactly when
the last row's date is strictly earlier than the nominal end date (first date
plus `duration_months` calendar months) and `duration_months` differs from the
row count; in particular a duration equal to the row count never raises it. -/
theorem c2_duration_exceeds (nc : Nat) (r0 : Date × List ℚ) (rest : List (Date × List ℚ))
    (z : ℤ) (hz : 0 < z) :
    (backtest_resample ⟨nc, r0 :: rest⟩ (.int z) = .error (.validation durationExceedsMsg) ↔
      (toOrd ((r0 :: rest).getLastD r0).1 < toOrd (addMonths r0.1 z.toNat) ∧
        z ≠ ((r0 :: rest).length : ℤ))) ∧
    (z = ((r0 :: rest).length : ℤ) →
      backtest_resample ⟨nc, r0 :: rest⟩ (.int z) ≠ .error (.validation durationExceedsMsg)) := by
  have hiff : backtest_resample ⟨nc, r0 :: rest⟩ (.int z)
        = .error (.validation durationExceedsMsg) ↔
      (toOrd ((r0 :: rest).getLastD r0).1 < toOrd (addMonths r0.1 z.toNat) ∧
        z ≠ ((r0 :: rest).length : ℤ)) := by
    rw [backtest_resample_cons nc r0 rest z hz]
    by_cases hc : toOrd ((r0 :: rest).getLastD r0).1 < toOrd (addMonths r0.1 z.toNat) ∧
        z ≠ ((r0 :: rest).length : ℤ)
    · rw [if_pos hc]
      exact ⟨fun _ => hc, fun _ => rfl⟩
    · rw [if_neg hc]
      exact ⟨fun h => Except.noConfusion h, fun h => absurd h hc⟩
  refine ⟨hiff, fun heq hraise => ?_⟩
  exact absurd ((hiff.mp hraise).2) (by simp [heq])

/-- C2 (witness): the exceeds-check characterisation applied to a concrete
two-row series with a 99-month duration. -/
theorem c2_witness :
    (0 : ℤ) < 99 ∧
    ((backtest_resample ⟨1, [((⟨2020, 1, 31⟩ : Date), ([0] : List ℚ)),
          ((⟨2020, 2, 29⟩ : Date), ([0] : List ℚ))]⟩ (.int 99)
        = .error (.validation durationExceedsMsg) ↔
      (toOrd (([((⟨2020, 1, 31⟩ : Date), ([0] : List ℚ)),
            ((⟨2020, 2, 29⟩ : Date), ([0] : List ℚ))]).getLastD
            ((⟨2020, 1, 31⟩ : Date), ([0] : List ℚ))).1 <
          toOrd (addMonths (⟨2020, 1, 31⟩ : Date) (99 : ℤ).toNat) ∧
        (99 : ℤ) ≠ (([((⟨2020, 1, 31⟩ : Date), ([0] : List ℚ)),
          ((⟨2020, 2, 29⟩ : Date), ([0] : List ℚ))]).length : ℤ))) ∧
      ((99 : ℤ) = (([((⟨2020, 1, 31⟩ : Date), ([0] : List ℚ)),
          ((⟨2020, 2, 29⟩ : Date), ([0] : List ℚ))]).length : ℤ) →
        backtest_resample ⟨1, [((⟨2020, 1, 31⟩ : Date), ([0] : List ℚ)),
          ((⟨2020, 2, 29⟩ : Date), ([0] : List ℚ))]⟩ (.int 99)
          ≠ .error (.validation durationExceedsMsg))) :=
  ⟨by decide, c2_duration_exceeds 1 _ _ 99 (by decide)⟩

/-- C3: for an ascending, non-empty series and any duration passing the
resampler's checks, the selected `closest_date` is a row date of minimal
absolute distance to the nominal end date, ties resolve to the earliest (and
hence smallest) such date, and the resampler returns the metrics of the rows
from the first date through `closest_date` inclusive. -/
theorem c3_closest_date (nc : Nat) (r0 : Date × List ℚ) (rest : List (Date × List ℚ)) (z : ℤ)
    (hsorted : List.Chain' (fun a b => toOrd a.1 < toOrd b.1) (r0 :: rest))
    (hz : 0 < z)
    (hpass : ¬ (toOrd ((r0 :: rest).getLastD r0).1 < toOrd (addMonths r0.1 z.toNat) ∧
      z ≠ ((r0 :: rest).length : ℤ))) :
    closestTo (addMonths r0.1 z.toNat) ((r0 :: rest).map Prod.fst) ∈ (r0 :: rest).map Prod.fst ∧
    (∀ x ∈ (r0 :: rest).map Prod.fst,
      distDays (closestTo (addMonths r0.1 z.toNat) ((r0 :: rest).map Prod.fst))
        (addMonths r0.1 z.toNat) ≤ distDays x (addMonths r0.1 z.toNat)) ∧
    (∀ x ∈ (r0 :: rest).map Prod.fst,
      distDays x (addMonths r0.1 z.toNat) =
        distDays (closestTo (addMonths r0.1 z.toNat) ((r0 :: rest).map Prod.fst))
          (addMonths r0.1 z.toNat) →
      toOrd (closestTo (addMonths r0.1 z.toNat) ((r0 :: rest).map Prod.fst)) ≤ toOrd x) ∧
    backtest_resample ⟨nc, r0 :: rest⟩ (.int z) =
      .ok (construct_key_metrics ⟨nc, (r0 :: rest).takeWhile (fun row =>
        dle row.1 (closestTo (addMonths r0.1 z.toNat) ((r0 :: rest).map Prod.fst)))⟩) := by
  have hchd : List.Chain' (fun a b : Date => toOrd a < toOrd b) ((r0 :: rest).map Prod.fst) :=
    (List.chain'_map Prod.fst).mpr hsorted
  simp only [List.map_cons] at hchd
  refine ⟨?_, ?_, ?_, ?_⟩
  · simp only [List.map_cons, closestTo]
    exact foldMin_mem _ _ _
  · simp only [List.map_cons, closestTo]
    exact fun x hx => foldMin_le _ _ _ x hx
  · simp only [List.map_cons, closestTo]
    exact fun x hx htie => foldMin_tie _ _ _ hchd x hx htie
  · rw [backtest_resample_cons nc r0 rest z hz, if_neg hpass]
    have hfilter : (r0 :: rest).filter (fun row => dle r0.1 row.1 &&
        dle row.1 (closestTo (addMonths r0.1 z.toNat) ((r0 :: rest).map Prod.fst))) =
        (r0 :: rest).filter (fun row =>
          dle row.1 (closestTo (addMonths r0.1 z.toNat) ((r0 :: rest).map Prod.fst))) := by
      apply List.filter_congr
      intro row hrow
      have h1 : dle r0.1 row.1 = true := by
        simp only [dle, decide_eq_true_eq]
        exact chain'_head_le (rest.map Prod.fst) r0.1 hchd row.1
          (by simpa only [List.map_cons] using List.mem_map_of_mem Prod.fst hrow)
      rw [h1, Bool.true_and]
    rw [hfilter,
      filter_le_eq_takeWhile (closestTo (addMonths r0.1 z.toNat) ((r0 :: rest).map Prod.fst))
        (r0 :: rest) hsorted]

/-- C3 (witness): the closest-date selection applied to a concrete three-row
monthly series with a two-month duration. -/
theorem c3_witness :
    backtest_resample ⟨1, [((⟨2020, 1, 31⟩ : Date), ([0] : List ℚ)),
        ((⟨2020, 2, 29⟩ : Date), ([0] : List ℚ)),
        ((⟨2020, 3, 31⟩ : Date), ([0] : List ℚ))]⟩ (.int 2) =
      .ok (construct_key_metrics ⟨1,
        ([((⟨2020, 1, 31⟩ : Date), ([0] : List ℚ)),
          ((⟨2020, 2, 29⟩ : Date), ([0] : List ℚ)),
          ((⟨2020, 3, 31⟩ : Date), ([0] : List ℚ))]).takeWhile (fun row =>
          dle row.1 (closestTo (addMonths (⟨2020, 1, 31⟩ : Date) (2 : ℤ).toNat)
            (([((⟨2020, 1, 31⟩ : Date), ([0] : List ℚ)),
              ((⟨2020, 2, 29⟩ : Date), ([0] : List ℚ)),
              ((⟨2020, 3, 31⟩ : Date), ([0] : List ℚ))]).map Prod.fst)))⟩) :=
  (c3_closest_date 1 _ _ 2
    (by simp only [List.chain'_cons, List.chain'_singleton]; exact ⟨by decide, by decide, trivial⟩)
    (by decide) (by decide)).2.2.2

/-- C4: on a non-empty series whose rows are consecutive calendar month-end
dates, `backtest_resample` with `duration_months` equal to the row count
returns exactly the bundle of the engine applied to the full series. -/
theorem c4_full_length_window (nc : Nat) (r0 : Date × List ℚ) (rest : List (Date × List ℚ))
    (y0 m0 : Nat) (hm1 : 1 ≤ m0) (hm2 : m0 ≤ 12) (hy : 1 ≤ y0)
    (hdates : (r0 :: rest).map Prod.fst =
      (List.range (r0 :: rest).length).map (fun i => nthMonthEnd y0 m0 i)) :
    backtest_resample ⟨nc, r0 :: rest⟩ (.int ((r0 :: rest).length : ℤ)) =
      .ok (construct_key_metrics ⟨nc, r0 :: rest⟩) := by
  have hlc : (r0 :: rest).length = rest.length + 1 := rfl
  have hz : (0 : ℤ) < ((r0 :: rest).length : ℤ) := by
    rw [hlc]
    exact_mod_cast Nat.succ_pos rest.length
  rw [backtest_resample_cons nc r0 rest _ hz, if_neg (by simp)]
  simp only [Int.toNat_natCast]
  have h0 : r0.1 = nthMonthEnd y0 m0 0 := by
    have hh := congrArg List.head? hdates
    rw [hlc, List.range_succ_eq_map] at hh
    simp only [List.map_cons, List.head?_cons, Option.some.injEq] at hh
    exact hh
  have hmemD : ∀ x ∈ (r0 :: rest).map Prod.fst,
      ∃ i, i < (r0 :: rest).length ∧ x = nthMonthEnd y0 m0 i := by
    intro x hx
    rw [hdates] at hx
    simp only [List.mem_map, List.mem_range] at hx
    obtain ⟨i, hi, rfl⟩ := hx
    exact ⟨i, hi, rfl⟩
  have hlast_mem : nthMonthEnd y0 m0 ((r0 :: rest).length - 1) ∈ (r0 :: rest).map Prod.fst := by
    rw [hdates]
    exact List.mem_map_of_mem _ (List.mem_range.mpr (by omega))
  have hend : addMonths r0.1 (r0 :: rest).length =
      ⟨nthYear y0 m0 (r0 :: rest).length, nthMonth m0 (r0 :: rest).length,
        min (daysInMonth y0 m0)
          (daysInMonth (nthYear y0 m0 (r0 :: rest).length)
            (nthMonth m0 (r0 :: rest).length))⟩ := by
    have hY0 : nthYear y0 m0 0 = y0 := by unfold nthYear; omega
    have hM0 : nthMonth m0 0 = m0 := by unfold nthMonth; omega
    have h00 : nthMonthEnd y0 m0 0 = monthEnd y0 m0 := by
      unfold nthMonthEnd
      rw [hY0, hM0]
    rw [h0, h00]
    unfold addMonths monthEnd nthYear nthMonth
    rfl
  have hdmin : 1 ≤ min (daysInMonth y0 m0)
      (daysInMonth (nthYear y0 m0 (r0 :: rest).length) (nthMonth m0 (r0 :: rest).length)) := by
    have h1 := monthLen_pos (isLeap y0) m0
    have h2 := monthLen_pos (isLeap (nthYear y0 m0 (r0 :: rest).length))
      (nthMonth m0 (r0 :: rest).length)
    unfold daysInMonth
    omega
  have hlast_lt_end : toOrd (nthMonthEnd y0 m0 ((r0 :: rest).length - 1)) <
      toOrd (addMonths r0.1 (r0 :: rest).length) := by
    rw [hend]
    have hstep := toOrd_nth_lt y0 m0 ((r0 :: rest).length - 1)
      (min (daysInMonth y0 m0)
        (daysInMonth (nthYear y0 m0 (r0 :: rest).length) (nthMonth m0 (r0 :: rest).length)))
      hm1 hm2 hy hdmin
    have hsucc : (r0 :: rest).length - 1 + 1 = (r0 :: rest).length := by omega
    rw [hsucc] at hstep
    exact hstep
  have hstrict : ∀ x ∈ (r0 :: rest).map Prod.fst,
      x ≠ nthMonthEnd y0 m0 ((r0 :: rest).length - 1) →
      distDays (nthMonthEnd y0 m0 ((r0 :: rest).length - 1)) (addMonths r0.1 (r0 :: rest).length)
        < distDays x (addMonths r0.1 (r0 :: rest).length) := by
    intro x hx hne
    obtain ⟨i, hi, rfl⟩ := hmemD x hx
    have hineq : i < (r0 :: rest).length - 1 := by
      rcases Nat.lt_or_ge i ((r0 :: rest).length - 1) with h | h
      · exact h
      · exfalso
        apply hne
        have hieq : i = (r0 :: rest).length - 1 := by omega
        rw [hieq]
    have hordlt := toOrd_nth_strictMono y0 m0 hm1 hm2 hy i ((r0 :: rest).length - 1) hineq
    unfold distDays
    omega
  have hclosest : closestTo (addMonths r0.1 (r0 :: rest).length) ((r0 :: rest).map Prod.fst) =
      nthMonthEnd y0 m0 ((r0 :: rest).length - 1) := by
    have hmem : closestTo (addMonths r0.1 (r0 :: rest).length) ((r0 :: rest).map Prod.fst)
        ∈ (r0 :: rest).map Prod.fst := by
      simp only [List.map_cons, closestTo]
      exact foldMin_mem _ _ _
    have hmin : distDays
        (closestTo (addMonths r0.1 (r0 :: rest).length) ((r0 :: rest).map Prod.fst))
        (addMonths r0.1 (r0 :: rest).length) ≤
        distDays (nthMonthEnd y0 m0 ((r0 :: rest).length - 1))
          (addMonths r0.1 (r0 :: rest).length) := by
      simp only [List.map_cons, closestTo]
      exact foldMin_le _ _ _ _ (by simpa only [List.map_cons] using hlast_mem)
    by_contra hne2
    have := hstrict _ hmem hne2
    omega
  have hfl : (r0 :: rest).filter (fun row => dle r0.1 row.1 &&
      dle row.1 (closestTo (addMonths r0.1 (r0 :: rest).length) ((r0 :: rest).map Prod.fst)))
      = r0 :: rest := by
    rw [List.filter_eq_self]
    intro row hrow
    obtain ⟨i, hi, hxi⟩ := hmemD row.1 (List.mem_map_of_mem Prod.fst hrow)
    have hle1 : toOrd r0.1 ≤ toOrd row.1 := by
      rw [h0, hxi]
      rcases Nat.eq_zero_or_pos i with rfl | hpos
      · exact le_refl _
      · exact (toOrd_nth_strictMono y0 m0 hm1 hm2 hy 0 i hpos).le
    have hle2 : toOrd row.1 ≤
        toOrd (closestTo (addMonths r0.1 (r0 :: rest).length) ((r0 :: rest).map Prod.fst)) := by
      rw [hclosest, hxi]
      rcases Nat.lt_or_ge i ((r0 :: rest).length - 1) with h | h
      · exact (toOrd_nth_strictMono y0 m0 hm1 hm2 hy i _ h).le
      · have hieq : i = (r0 :: rest).length - 1 := by omega
        rw [hieq]
    simp only [Bool.and_eq_true, dle, decide_eq_true_eq]
    exact ⟨hle1, hle2⟩
  rw [hfl]

/-- C4 (witness): the full-length window equivalence applied to a concrete
two-row consecutive month-end series. -/
theorem c4_witness :
    backtest_resample ⟨1, [((⟨2020, 1, 31⟩ : Date), ([0] : List ℚ)),
        ((⟨2020, 2, 29⟩ : Date), ([0] : List ℚ))]⟩ (.int 2) =
      .ok (construct_key_metrics ⟨1, [((⟨2020, 1, 31⟩ : Date), ([0] : List ℚ)),
        ((⟨2020, 2, 29⟩ : Date), ([0] : List ℚ))]⟩) :=
  c4_full_length_window 1 _ _ 2020 1 (by decide) (by decide) (by decide) (by decide)

end WQC
